import Mathlib

/-!
Verification development for the ZeddyBot core: the stream poller /
notification engine (`StreamNotificationManager.get_notifications`), the
chat transport (`TwitchChatBot.connect` / `send_message`), the token
lifecycle (`refresh_twitch_bot_token`), and the chat-history ring buffer
(`DashboardData.chat_messages`).  Each Python method is shallowly embedded
as a pure Lean function; network and socket effects appear as explicit
outcome parameters, and Python exceptions as `Except` / `Option` values.
-/

/-! ### Timestamps

`datetime.strptime(s, "%Y-%m-%dT%H:%M:%SZ")` parses a fixed-width UTC
timestamp and raises `ValueError` on a malformed string.  We embed the
parse as `parse_started_at : String → Option Nat`, encoding the parsed
`(year, month, day, hour, minute, second)` tuple into a single `Nat` by a
mixed-radix encoding that preserves the lexicographic (i.e. chronological)
order that Python's `datetime` comparison uses. -/

def digitVal (c : Char) : Option Nat :=
  if 48 ≤ c.toNat ∧ c.toNat ≤ 57 then some (c.toNat - 48) else none

def isLeapYear (y : Nat) : Bool :=
  (y % 4 = 0 && y % 100 ≠ 0) || y % 400 = 0

def daysInMonth (y mo : Nat) : Nat :=
  if mo = 2 then (if isLeapYear y then 29 else 28)
  else if mo = 4 || mo = 6 || mo = 9 || mo = 11 then 30
  else 31

def mkTimestamp (y mo d h mi s : Nat) : Option Nat :=
  if 1 ≤ mo ∧ mo ≤ 12 ∧ 1 ≤ d ∧ d ≤ daysInMonth y mo ∧ h ≤ 23 ∧ mi ≤ 59 ∧ s ≤ 59 then
    some (((((y * 13 + mo) * 32 + d) * 24 + h) * 60 + mi) * 60 + s)
  else none

def parse_started_at (str : String) : Option Nat :=
  match str.data with
  | [a, b, c, d, da1, e, f, da2, g, h, tt, i, j, co1, k, l, co2, m, n, zz] =>
    if da1 = '-' && da2 = '-' && tt = 'T' && co1 = ':' && co2 = ':' && zz = 'Z' then
      match digitVal a, digitVal b, digitVal c, digitVal d, digitVal e, digitVal f,
            digitVal g, digitVal h, digitVal i, digitVal j, digitVal k, digitVal l,
            digitVal m, digitVal n with
      | some a1, some a2, some a3, some a4, some b1, some b2, some e1, some e2,
        some f1, some f2, some g1, some g2, some k1, some k2 =>
        mkTimestamp (a1 * 1000 + a2 * 100 + a3 * 10 + a4) (b1 * 10 + b2)
          (e1 * 10 + e2) (f1 * 10 + f2) (g1 * 10 + g2) (k1 * 10 + k2)
      | _, _, _, _, _, _, _, _, _, _, _, _, _, _ => none
    else none
  | _ => none

/-! ### Data model of the poller

A stream record as returned by `TwitchAPI.get_streams` (we keep the fields
the poller reads: `started_at`, `title`, `game_name`, `user_login`).
`self.online_users` is a Python dict from watched user name to either a
`datetime` or `None`; we embed it as `OnlineMap`: `none` means no entry at
all, `some none` means an entry holding Python `None`, `some (some t)` an
entry holding a datetime. -/

structure StreamEntry where
  started_at : String
  title : String
  game_name : String
  user_login : String
deriving DecidableEq

def UsersMap : Type := String → Option String

def StreamsMap : Type := String → Option StreamEntry

def OnlineMap : Type := String → Option (Option Nat)

def updateMap (st : OnlineMap) (u : String) (v : Option Nat) : OnlineMap :=
  fun w => if w = u then some v else st w

/-- Value of `self.online_users[user_name]` right after the lazy
first-seen insertion of `datetime.now(timezone.utc)` (embedded as `tNow`). -/
def lazyVal (st : OnlineMap) (tNow : Nat) (u : String) : Option Nat :=
  match st u with
  | none => some tNow
  | some v => v

/-- The state after `if user_name not in self.online_users:
self.online_users[user_name] = datetime.now(timezone.utc)`. -/
def lazyInit (st : OnlineMap) (tNow : Nat) (u : String) : OnlineMap :=
  match st u with
  | none => updateMap st u (some tNow)
  | some _ => st

/-- One iteration of the `for user_name in self.config.watchlist` loop body
of `StreamNotificationManager.get_notifications` (identical in
`src/main/zeddybot.py` and `src/zeddybot.py`): lazily initialise the
entry, clear it to `None` when the user is absent from the live results,
otherwise parse `started_at` (a `ValueError` aborts the whole call, which
we model as `Except.error ()`) and notify exactly when the recorded value
is `None` or strictly earlier.  The Twitch-chat relay side effect for the
target channel does not touch the returned notifications or the state map
and is not modelled. -/
def pollUser (streams : StreamsMap) (tNow : Nat) (st : OnlineMap) (u : String) :
    OnlineMap × Except Unit (List StreamEntry) :=
  let st1 := lazyInit st tNow u
  match streams u with
  | none => (updateMap st1 u none, Except.ok [])
  | some entry =>
    match parse_started_at entry.started_at with
    | none => (st1, Except.error ())
    | some s =>
      match (st1 u).getD none with
      | none => (updateMap st1 u (some s), Except.ok [entry])
      | some p =>
        if p < s then (updateMap st1 u (some s), Except.ok [entry])
        else (st1, Except.ok [])

/-- The full watchlist loop: runs `pollUser` over the list, accumulating
notifications in order; an exception aborts the loop, keeping the state
mutations already performed but discarding the local notification list. -/
def processUsers (streams : StreamsMap) (tNow : Nat) :
    OnlineMap → List String → OnlineMap × Except Unit (List StreamEntry)
  | st, [] => (st, Except.ok [])
  | st, u :: rest =>
    match pollUser streams tNow st u with
    | (st2, Except.error e) => (st2, Except.error e)
    | (st2, Except.ok ns) =>
      match processUsers streams tNow st2 rest with
      | (stF, Except.error e) => (stF, Except.error e)
      | (stF, Except.ok ms) => (stF, Except.ok (ns ++ ms))

/-- `StreamNotificationManager.get_notifications`.  The two batched lookups
`self.twitch_api.get_users(self.config.watchlist)` and
`self.twitch_api.get_streams(users)` are embedded as fallible inputs
(`requests` exceptions, missing `data` keys and so on propagate out of the
method before any state mutation, modelled as `Except.error ()`).  The
result pairs the final `self.online_users` state with either the
notification list or the propagated exception. -/
def get_notifications (fetchUsers : Except Unit UsersMap)
    (fetchStreams : UsersMap → Except Unit StreamsMap)
    (watchlist : List String) (tNow : Nat) (st : OnlineMap) :
    OnlineMap × Except Unit (List StreamEntry) :=
  match fetchUsers with
  | Except.error e => (st, Except.error e)
  | Except.ok users =>
    match fetchStreams users with
    | Except.error e => (st, Except.error e)
    | Except.ok streams => processUsers streams tNow st watchlist

/-- Iterated polling: `get_notifications` called `n` times in a row against
a fixed environment (fixed watchlist and fixed live-stream responses),
threading the `online_users` state and collecting each cycle's result. -/
def pollTimes (fetchUsers : Except Unit UsersMap)
    (fetchStreams : UsersMap → Except Unit StreamsMap)
    (watchlist : List String) (tNow : Nat) :
    Nat → OnlineMap → OnlineMap × List (Except Unit (List StreamEntry))
  | 0, st => (st, [])
  | Nat.succ n, st =>
    match get_notifications fetchUsers fetchStreams watchlist tNow st with
    | (st1, r) =>
      match pollTimes fetchUsers fetchStreams watchlist tNow n st1 with
      | (stF, rs) => (stF, r :: rs)

/-- Number of notifications in one cycle's output whose `user_login` is `u`. -/
def countFor (u : String) (l : List StreamEntry) : Nat :=
  l.countP (fun e => decide (e.user_login = u))

/-- Total number of notifications for `u` across a list of cycle results
(a failed cycle contributes none). -/
def totalNotifFor (u : String) (rs : List (Except Unit (List StreamEntry))) : Nat :=
  (rs.map (fun r => match r with
    | Except.error _ => 0
    | Except.ok l => countFor u l)).sum

/-- Specification-level description of the per-user state after one loop
iteration, as a function of the post-lazy-init recorded value. -/
def stepVal (streams : StreamsMap) (tNow : Nat) (u : String) (v : Option Nat) : Option Nat :=
  match streams u with
  | none => none
  | some entry =>
    match parse_started_at entry.started_at with
    | none => v
    | some s =>
      match v with
      | none => some s
      | some p => if p < s then some s else some p

/-- Whether one loop iteration emits a notification for `u`, as a function
of the post-lazy-init recorded value. -/
def stepNotify (streams : StreamsMap) (u : String) (v : Option Nat) : Bool :=
  match streams u with
  | none => false
  | some entry =>
    match parse_started_at entry.started_at with
    | none => false
    | some s =>
      match v with
      | none => true
      | some p => decide (p < s)

/-- The live-stream response is consistent when each entry is keyed by its
own `user_login` (`get_streams` builds the dict exactly that way). -/
def consistentStreams (streams : StreamsMap) : Prop :=
  ∀ v entry, streams v = some entry → entry.user_login = v

/-- All live entries carry a parseable `started_at`. -/
def wellFormedStreams (streams : StreamsMap) : Prop :=
  ∀ v entry, streams v = some entry → (parse_started_at entry.started_at).isSome = true

/-! ### Chat transport (`TwitchChatBot` in `src/main/zeddybot.py`, and the
older near-duplicate in `src/zeddybot.py`)

Socket effects are embedded as explicit outcome parameters: `sockOk` is
whether the TCP connect and the PASS/NICK/JOIN writes all succeed, and
`RecvOutcome` is what the blocking `recv` after the handshake yields.  The
functions return `(returnValue, connectedAfter)`. -/

def hasPre : List Char → List Char → Bool
  | [], _ => true
  | _ :: _, [] => false
  | p :: ps, c :: cs => p = c && hasPre ps cs

def containsSub (pat : List Char) : List Char → Bool
  | [] => hasPre pat []
  | c :: cs => hasPre pat (c :: cs) || containsSub pat cs

/-- Python's `pattern in s` substring test. -/
def strContains (s pat : String) : Bool :=
  containsSub pat.data s.data

/-- The welcome test of `TwitchChatBot.connect` in `src/main/zeddybot.py`:
`"Welcome, GLHF!" in response or "End of /NAMES list" in response`. -/
def welcome_check (resp : String) : Bool :=
  strContains resp "Welcome, GLHF!" || strContains resp "End of /NAMES list"

inductive RecvOutcome where
  | timeout
  | sockErr
  | line (resp : String)
deriving DecidableEq

/-- `TwitchChatBot.connect` from `src/main/zeddybot.py` (lines 191-228):
open the socket, send PASS/NICK/JOIN, block on `recv`; only when the
response contains a welcome acknowledgment set `self.connected = True` and
return `True`.  On timeout, socket error, or an unexpected response it
returns `False` and `self.connected` is left as it was (the confirmation
`send_message` performed after a successful welcome does not change the
return value and is not modelled).  Result: `(returnValue, connected)`. -/
def connect (connected0 : Bool) (sockOk : Bool) (recv : RecvOutcome) : Bool × Bool :=
  if sockOk = false then (false, connected0)
  else
    match recv with
    | RecvOutcome.timeout => (false, connected0)
    | RecvOutcome.sockErr => (false, connected0)
    | RecvOutcome.line resp =>
      if welcome_check resp then (true, true) else (false, connected0)

/-- `TwitchChatBot.connect` from the older `src/zeddybot.py` (lines
198-224): after the TCP connect and the PASS/NICK/JOIN writes succeed it
immediately sets the socket non-blocking and `self.connected = True`,
without reading any server response; only an exception during those
socket operations yields `(False, connected = False)`.  The `recv`
argument records what the server would have answered — the function
ignores it, which is exactly the point. -/
def legacy_connect (sockOk : Bool) (recv : RecvOutcome) : Bool × Bool :=
  if sockOk then (true, true) else (false, false)

/-- Outcomes of the socket operations performed by one
`TwitchChatBot.send_message` call in `src/main/zeddybot.py`:
`connectOnEntry` is the result of the `connect()` issued when the
transport is not connected at entry; `firstWriteOk` is whether the
`is_connected` PING probe and the PRIVMSG write both succeed (either
failing raises the same `BrokenPipeError`/`socket.error` family);
`reconnectOk` is the result of the `connect()` inside the error handler
and `resendOk` the result of the PRIVMSG resend after it. -/
structure SendEnv where
  connectOnEntry : Bool
  firstWriteOk : Bool
  reconnectOk : Bool
  resendOk : Bool
deriving DecidableEq

/-- Observable outcome of `send_message`: the returned boolean, the final
`self.connected`, how many reconnect attempts the error handler made, and
whether the handler marked the transport disconnected before them. -/
structure SendResult where
  ret : Bool
  connectedEnd : Bool
  reconnectAttempts : Nat
  markedDisconnected : Bool
deriving DecidableEq

/-- `TwitchChatBot.send_message` from `src/main/zeddybot.py` (lines
260-327): if not connected, first `connect()` and return `False` when that
fails; then probe and write the PRIVMSG frame; on a broken-pipe/socket
error set `self.connected = False`, attempt exactly one
reconnect-and-resend, returning `True` only when both succeed (a resend
exception is caught and returns `False` without touching `connected`
again, and a failed reconnect returns `False`). -/
def send_message (connected0 : Bool) (env : SendEnv) : SendResult :=
  if connected0 = false && env.connectOnEntry = false then
    SendResult.mk false false 0 false
  else
    if env.firstWriteOk then
      SendResult.mk true true 0 false
    else
      if env.reconnectOk then
        if env.resendOk then SendResult.mk true true 1 true
        else SendResult.mk false true 1 true
      else SendResult.mk false false 1 true

/-! ### Token lifecycle (`tools/token_utils.refresh_twitch_bot_token`,
delegated to by `TwitchAPI.refresh_bot_token` in `src/main/zeddybot.py`;
`TwitchAPI.refresh_bot_token` in `src/zeddybot.py` has the same
success/failure structure inline). -/

/-- The credential fields of `config.json` that the refresh reads/writes. -/
structure BotCredentials where
  twitch_bot_client_id : String
  twitch_bot_secret : String
  twitch_bot_access_token : String
  twitch_bot_refresh_token : String
deriving DecidableEq

/-- The parsed body and status of the POST to the OAuth token endpoint. -/
structure TokenResponse where
  status_code : Nat
  access_token : String
  refresh_token : String
deriving DecidableEq

/-- Result of a refresh: the returned `(success, token)` pair, the
credential store contents afterwards, and whether they were written back
to disk (`json.dump`). -/
structure RefreshResult where
  success : Bool
  token : Option String
  cfg : BotCredentials
  saved : Bool
deriving DecidableEq

/-- `refresh_twitch_bot_token` from `src/tools/token_utils.py` (lines
11-73): with no stored refresh token it fails without calling out; on HTTP
200 it replaces both the access and the refresh token with the response
body's values and persists the config; on any other status it returns
failure and leaves the stored credentials untouched. -/
def refresh_twitch_bot_token (cfg : BotCredentials) (resp : TokenResponse) : RefreshResult :=
  if cfg.twitch_bot_refresh_token = "" then
    RefreshResult.mk false none cfg false
  else if resp.status_code = 200 then
    RefreshResult.mk true (some resp.access_token)
      (BotCredentials.mk cfg.twitch_bot_client_id cfg.twitch_bot_secret
        resp.access_token resp.refresh_token) true
  else
    RefreshResult.mk false none cfg false

/-! ### Chat-history ring buffer

`DashboardData.__init__` creates `self.chat_messages = deque(maxlen=100)`;
`parse_chat_messages` and `send_message` `append` to it.  A bounded deque
keeps the most recent `maxlen` items, evicting from the left. -/

structure ChatMessage where
  username : String
  message : String
  timestamp : String
deriving DecidableEq

/-- The capacity passed to `deque(maxlen=100)` in `DashboardData.__init__`. -/
def chat_messages_maxlen : Nat := 100

/-- `deque.append` for a deque with `maxlen = cap`: add on the right,
dropping from the left whatever exceeds the capacity. -/
def dequeAppend (cap : Nat) (buf : List ChatMessage) (x : ChatMessage) : List ChatMessage :=
  ((buf ++ [x])).drop ((buf.length + 1) - cap)

/-- Appending a sequence of messages in arrival order. -/
def appendAll (cap : Nat) (buf : List ChatMessage) (xs : List ChatMessage) : List ChatMessage :=
  xs.foldl (dequeAppend cap) buf

/-- The most recent `n` elements of a list. -/
def lastN (n : Nat) (l : List ChatMessage) : List ChatMessage :=
  l.drop (l.length - n)

/-! ### Concrete test fixtures (used by witnesses and counterexamples) -/

def stEmpty : OnlineMap := fun _ => none

def usersAB : UsersMap :=
  fun v => if v = "alice" then some "1" else if v = "bob" then some "2" else none

def usersOnlyBob : UsersMap :=
  fun v => if v = "bob" then some "2" else none

def entryAlice : StreamEntry :=
  StreamEntry.mk "2024-06-01T10:00:00Z" "Title A" "Game A" "alice"

def entryBob : StreamEntry :=
  StreamEntry.mk "2024-06-01T10:05:00Z" "Title B" "Game B" "bob"

def entryBadAlice : StreamEntry :=
  StreamEntry.mk "not-a-timestamp" "Title X" "Game X" "alice"

/-- Encoded timestamp of `entryAlice.started_at`. -/
def tsAlice : Nat := (parse_started_at "2024-06-01T10:00:00Z").getD 0

/-- Encoded timestamp of `entryBob.started_at`. -/
def tsBob : Nat := (parse_started_at "2024-06-01T10:05:00Z").getD 0

/-- A poll wall-clock value two hours after `entryAlice`'s stream start —
the generic situation of a bot (re)started while the stream is live. -/
def tNowLate : Nat := tsAlice + 7200

/-- A live-streams response containing exactly one live user. -/
def singletonStreams (u : String) (e : StreamEntry) : StreamsMap :=
  fun v => if v = u then some e else none

def streamsAlice : StreamsMap := singletonStreams "alice" entryAlice

def streamsBob : StreamsMap := singletonStreams "bob" entryBob

def streamsAliceBadBobGood : StreamsMap :=
  fun v => if v = "alice" then some entryBadAlice
    else if v = "bob" then some entryBob else none

def fetchOk (m : UsersMap) : Except Unit UsersMap := Except.ok m

def fetchStreamsConst (sm : StreamsMap) : UsersMap → Except Unit StreamsMap :=
  fun _ => Except.ok sm

/-- State with `"alice"` recorded as not live (`online_users["alice"] = None`). -/
def stAliceNull : OnlineMap := updateMap stEmpty "alice" none

/-- State with `"alice"` recorded live since `tsAlice`. -/
def stAliceLive : OnlineMap := updateMap stEmpty "alice" (some tsAlice)

def msgA : ChatMessage := ChatMessage.mk "userA" "first message" "01-06-2024 10:00:00"

def msgB : ChatMessage := ChatMessage.mk "userB" "second message" "01-06-2024 10:00:05"

def msgC : ChatMessage := ChatMessage.mk "userC" "third message" "01-06-2024 10:00:09"

/-! ### Helper lemmas about the poller -/

theorem updateMap_self (st : OnlineMap) (u : String) (v : Option Nat) :
    updateMap st u v u = some v := by
  simp [updateMap]

theorem updateMap_other (st : OnlineMap) (u : String) (v : Option Nat) (w : String)
    (h : w ≠ u) : updateMap st u v w = st w := by
  simp [updateMap, h]

theorem lazyInit_self (st : OnlineMap) (tNow : Nat) (u : String) :
    lazyInit st tNow u u = some (lazyVal st tNow u) := by
  unfold lazyInit lazyVal
  cases h : st u with
  | none => simp [updateMap]
  | some v => simp [h]

theorem lazyInit_other (st : OnlineMap) (tNow : Nat) (u w : String) (h : w ≠ u) :
    lazyInit st tNow u w = st w := by
  unfold lazyInit
  cases hs : st u with
  | none => simp [updateMap, h]
  | some v => rfl

theorem pollUser_fst_other (streams : StreamsMap) (tNow : Nat) (st : OnlineMap)
    (u w : String) (h : w ≠ u) :
    ((pollUser streams tNow st u).1) w = st w := by
  have hlo := lazyInit_other st tNow u w h
  cases hs : streams u with
  | none => simp [pollUser, hs, updateMap, h, hlo]
  | some entry =>
    cases hp : parse_started_at entry.started_at with
    | none => simp [pollUser, hs, hp, hlo]
    | some s =>
      simp only [pollUser, hs, hp]
      rw [lazyInit_self]
      cases hv : lazyVal st tNow u with
      | none => simp [updateMap, h, hlo]
      | some p =>
        by_cases hps : p < s
        · simp [hps, updateMap, h, hlo]
        · simp [hps, hlo]

theorem pollUser_fst_self (streams : StreamsMap) (tNow : Nat) (st : OnlineMap)
    (u : String) :
    ((pollUser streams tNow st u).1) u = some (stepVal streams tNow u (lazyVal st tNow u)) := by
  cases hs : streams u with
  | none => simp [pollUser, stepVal, hs, updateMap]
  | some entry =>
    cases hp : parse_started_at entry.started_at with
    | none => simp [pollUser, stepVal, hs, hp, lazyInit_self]
    | some s =>
      simp only [pollUser, stepVal, hs, hp]
      rw [lazyInit_self]
      cases hv : lazyVal st tNow u with
      | none => simp [updateMap]
      | some p =>
        by_cases hps : p < s
        · simp [hps, updateMap]
        · simp [hps, lazyInit_self, hv]

theorem pollUser_snd_eq (streams : StreamsMap) (tNow : Nat) (st : OnlineMap)
    (u : String) :
    (pollUser streams tNow st u).2 =
      match streams u with
      | none => Except.ok []
      | some entry =>
        match parse_started_at entry.started_at with
        | none => Except.error ()
        | some _ =>
          Except.ok (if stepNotify streams u (lazyVal st tNow u) then [entry] else []) := by
  cases hs : streams u with
  | none => simp [pollUser, hs]
  | some entry =>
    cases hp : parse_started_at entry.started_at with
    | none => simp [pollUser, hp, hs]
    | some s =>
      simp only [pollUser, stepNotify, hs, hp]
      rw [lazyInit_self]
      cases hv : lazyVal st tNow u with
      | none => simp
      | some p =>
        by_cases hps : p < s
        · simp [hps]
        · simp [hps]

theorem countFor_nil (u : String) : countFor u [] = 0 := rfl

theorem countFor_single_ne (u : String) (e : StreamEntry) (h : e.user_login ≠ u) :
    countFor u [e] = 0 := by
  simp [countFor, List.countP_cons, h]

theorem countFor_single_eq (u : String) (e : StreamEntry) (h : e.user_login = u) :
    countFor u [e] = 1 := by
  simp [countFor, List.countP_cons, h]

theorem countFor_append (u : String) (l1 l2 : List StreamEntry) :
    countFor u (l1 ++ l2) = countFor u l1 + countFor u l2 := by
  simp [countFor, List.countP_append]

/-- Entries handed back by one `pollUser` step for user `v` come from
`streams v`. -/
theorem pollUser_snd_mem (streams : StreamsMap) (tNow : Nat) (st : OnlineMap)
    (u : String) (ns : List StreamEntry)
    (h : (pollUser streams tNow st u).2 = Except.ok ns) :
    ∀ e, e ∈ ns → streams u = some e := by
  intro e he
  rw [pollUser_snd_eq] at h
  cases hs : streams u with
  | none =>
    simp only [hs] at h
    cases h
    cases he
  | some entry =>
    simp only [hs] at h
    cases hp : parse_started_at entry.started_at with
    | none => simp only [hp] at h; cases h
    | some s =>
      simp only [hp] at h
      cases hn : stepNotify streams u (lazyVal st tNow u) with
      | true =>
        simp only [hn, if_true] at h
        cases h
        cases he with
        | head => rfl
        | tail _ hmem => cases hmem
      | false =>
        simp only [hn, Bool.false_eq_true, if_false] at h
        cases h
        cases he

theorem processUsers_fst_not_mem (streams : StreamsMap) (tNow : Nat) (w : String) :
    ∀ (ws : List String) (st : OnlineMap), w ∉ ws →
      ((processUsers streams tNow st ws).1) w = st w := by
  intro ws
  induction ws with
  | nil => intro st _; rfl
  | cons u rest ih =>
    intro st h
    have hwu : w ≠ u := fun e => h (e ▸ List.mem_cons_self u rest)
    have hwr : w ∉ rest := fun hr => h (List.mem_cons_of_mem _ hr)
    rcases hpu : pollUser streams tNow st u with ⟨st2, r⟩
    have hframe : st2 w = st w := by
      have := pollUser_fst_other streams tNow st u w hwu
      rw [hpu] at this
      exact this
    cases r with
    | error e => simp [processUsers, hpu, hframe]
    | ok ns =>
      rcases hrec : processUsers streams tNow st2 rest with ⟨stF, r2⟩
      have hrecw : stF w = st2 w := by
        have := ih st2 hwr
        rw [hrec] at this
        exact this
      cases r2 with
      | error e => simp [processUsers, hpu, hrec, hrecw, hframe]
      | ok ms => simp [processUsers, hpu, hrec, hrecw, hframe]

/-- When the whole loop completes without an exception, the final recorded
state of a watched user `u` is exactly one `stepVal` applied to its
pre-cycle recorded value. -/
theorem processUsers_fst_mem (streams : StreamsMap) (tNow : Nat) (u : String) :
    ∀ (ws : List String) (st : OnlineMap) (ns : List StreamEntry),
      ws.Nodup → u ∈ ws →
      (processUsers streams tNow st ws).2 = Except.ok ns →
      ((processUsers streams tNow st ws).1) u
        = some (stepVal streams tNow u (lazyVal st tNow u)) := by
  intro ws
  induction ws with
  | nil => intro st ns _ hu; cases hu
  | cons v rest ih =>
    intro st ns hnd hu hok
    rcases List.nodup_cons.mp hnd with ⟨hvrest, hndr⟩
    rcases hpu : pollUser streams tNow st v with ⟨st2, r⟩
    cases r with
    | error e =>
      simp only [processUsers, hpu] at hok
      cases hok
    | ok ns0 =>
      rcases hrec : processUsers streams tNow st2 rest with ⟨stF, r2⟩
      cases r2 with
      | error e =>
        simp only [processUsers, hpu, hrec] at hok
        cases hok
      | ok ms =>
        have hfst : (processUsers streams tNow st (v :: rest)).1 = stF := by
          simp [processUsers, hpu, hrec]
        rcases List.mem_cons.mp hu with hueq | hur
        · subst hueq
          have hnotmem : stF u = st2 u := by
            have := processUsers_fst_not_mem streams tNow u rest st2 hvrest
            rw [hrec] at this
            exact this
          have hself : st2 u = some (stepVal streams tNow u (lazyVal st tNow u)) := by
            have := pollUser_fst_self streams tNow st u
            rw [hpu] at this
            exact this
          rw [hfst, hnotmem, hself]
        · have hvu : u ≠ v := fun e => hvrest (e ▸ hur)
          have hframe : st2 u = st u := by
            have := pollUser_fst_other streams tNow st v u hvu
            rw [hpu] at this
            exact this
          have hlz : lazyVal st2 tNow u = lazyVal st tNow u := by
            unfold lazyVal
            rw [hframe]
          have h2 : stF u = some (stepVal streams tNow u (lazyVal st2 tNow u)) := by
            have := ih st2 ms hndr hur (by rw [hrec])
            rw [hrec] at this
            exact this
          rw [hfst, h2, hlz]

/-- Per-step notification count: a `pollUser` step for user `u` contributes
one notification for `w` exactly when `w = u` and `stepNotify` fires. -/
theorem pollUser_countFor (streams : StreamsMap) (tNow : Nat) (st : OnlineMap)
    (u w : String) (ns0 : List StreamEntry) (hcons : consistentStreams streams)
    (h : (pollUser streams tNow st u).2 = Except.ok ns0) :
    countFor w ns0 =
      if w = u then (if stepNotify streams u (lazyVal st tNow u) then 1 else 0)
      else 0 := by
  rw [pollUser_snd_eq] at h
  cases hs : streams u with
  | none =>
    simp only [hs] at h
    cases h
    have hsn : stepNotify streams u (lazyVal st tNow u) = false := by
      unfold stepNotify
      rw [hs]
    rw [hsn]
    simp [countFor_nil]
  | some entry =>
    simp only [hs] at h
    cases hp : parse_started_at entry.started_at with
    | none => simp only [hp] at h; cases h
    | some s =>
      simp only [hp] at h
      have hlogin : entry.user_login = u := hcons u entry hs
      cases hn : stepNotify streams u (lazyVal st tNow u) with
      | true =>
        simp only [hn, if_true] at h
        cases h
        by_cases hwu : w = u
        · subst hwu
          rw [if_pos rfl, if_pos rfl]
          exact countFor_single_eq w entry hlogin
        · rw [if_neg hwu]
          exact countFor_single_ne w entry (by rw [hlogin]; exact fun e2 => hwu e2.symm)
      | false =>
        simp only [hn, Bool.false_eq_true, if_false] at h
        cases h
        simp [countFor_nil]

/-- A user not on the watchlist is never notified in an exception-free
cycle (given the keying consistency of the live-streams response). -/
theorem processUsers_count_not_mem (streams : StreamsMap) (tNow : Nat) (u : String)
    (hcons : consistentStreams streams) :
    ∀ (ws : List String) (st : OnlineMap) (ns : List StreamEntry),
      u ∉ ws →
      (processUsers streams tNow st ws).2 = Except.ok ns →
      countFor u ns = 0 := by
  intro ws
  induction ws with
  | nil =>
    intro st ns _ hok
    cases hok
    rfl
  | cons v rest ih =>
    intro st ns hnmem hok
    have hvu : u ≠ v := fun e => hnmem (e ▸ List.mem_cons_self v rest)
    have hnr : u ∉ rest := fun hr => hnmem (List.mem_cons_of_mem _ hr)
    rcases hpu : pollUser streams tNow st v with ⟨st2, r⟩
    cases r with
    | error e =>
      simp only [processUsers, hpu] at hok
      cases hok
    | ok ns0 =>
      rcases hrec : processUsers streams tNow st2 rest with ⟨stF, r2⟩
      cases r2 with
      | error e =>
        simp only [processUsers, hpu, hrec] at hok
        cases hok
      | ok ms =>
        simp only [processUsers, hpu, hrec] at hok
        cases hok
        rw [countFor_append]
        have h0 : countFor u ns0 = 0 := by
          have := pollUser_countFor streams tNow st v u ns0 hcons (by rw [hpu])
          rw [if_neg hvu] at this
          exact this
        rw [h0, ih st2 ms hnr (by rw [hrec])]

/-- In an exception-free cycle, a watched user `u` contributes exactly one
notification when `stepNotify` fires on its pre-cycle value, and none
otherwise. -/
theorem processUsers_count_mem (streams : StreamsMap) (tNow : Nat) (u : String)
    (hcons : consistentStreams streams) :
    ∀ (ws : List String) (st : OnlineMap) (ns : List StreamEntry),
      ws.Nodup → u ∈ ws →
      (processUsers streams tNow st ws).2 = Except.ok ns →
      countFor u ns = (if stepNotify streams u (lazyVal st tNow u) then 1 else 0) := by
  intro ws
  induction ws with
  | nil => intro st ns _ hu; cases hu
  | cons v rest ih =>
    intro st ns hnd hu hok
    rcases List.nodup_cons.mp hnd with ⟨hvrest, hndr⟩
    rcases hpu : pollUser streams tNow st v with ⟨st2, r⟩
    cases r with
    | error e =>
      simp only [processUsers, hpu] at hok
      cases hok
    | ok ns0 =>
      rcases hrec : processUsers streams tNow st2 rest with ⟨stF, r2⟩
      cases r2 with
      | error e =>
        simp only [processUsers, hpu, hrec] at hok
        cases hok
      | ok ms =>
        simp only [processUsers, hpu, hrec] at hok
        cases hok
        rw [countFor_append]
        rcases List.mem_cons.mp hu with hueq | hur
        · subst hueq
          have hms : countFor u ms = 0 :=
            processUsers_count_not_mem streams tNow u hcons rest st2 ms hvrest
              (by rw [hrec])
          have hns0 := pollUser_countFor streams tNow st u u ns0 hcons (by rw [hpu])
          rw [if_pos rfl] at hns0
          omega
        · have hvu : u ≠ v := fun e => hvrest (e ▸ hur)
          have hframe : st2 u = st u := by
            have := pollUser_fst_other streams tNow st v u hvu
            rw [hpu] at this
            exact this
          have hlz : lazyVal st2 tNow u = lazyVal st tNow u := by
            unfold lazyVal
            rw [hframe]
          have hns0 : countFor u ns0 = 0 := by
            have := pollUser_countFor streams tNow st v u ns0 hcons (by rw [hpu])
            rw [if_neg hvu] at this
            exact this
          have hmsc := ih st2 ms hndr hur (by rw [hrec])
          rw [hns0, hmsc, hlz]
          omega

theorem get_notifications_eq_processUsers (fetchStreams : UsersMap → Except Unit StreamsMap)
    (U : UsersMap) (streams : StreamsMap) (ws : List String) (tNow : Nat) (st : OnlineMap)
    (hS : fetchStreams U = Except.ok streams) :
    get_notifications (Except.ok U) fetchStreams ws tNow st = processUsers streams tNow st ws := by
  simp [get_notifications, hS]

/-- When every live entry's `started_at` parses, no cycle raises. -/
theorem processUsers_ok_of_wellFormed (streams : StreamsMap) (tNow : Nat)
    (hwf : wellFormedStreams streams) :
    ∀ (ws : List String) (st : OnlineMap),
      ∃ ns, (processUsers streams tNow st ws).2 = Except.ok ns := by
  intro ws
  induction ws with
  | nil => intro st; exact ⟨[], rfl⟩
  | cons v rest ih =>
    intro st
    rcases hpu : pollUser streams tNow st v with ⟨st2, r⟩
    have hr : ∃ ns0, r = Except.ok ns0 := by
      have hsnd := pollUser_snd_eq streams tNow st v
      rw [hpu] at hsnd
      cases hs : streams v with
      | none =>
        rw [hs] at hsnd
        exact ⟨[], hsnd⟩
      | some entry =>
        have hp := hwf v entry hs
        cases hpp : parse_started_at entry.started_at with
        | none => rw [hpp] at hp; cases hp
        | some s =>
          rw [hs] at hsnd
          simp only [hpp] at hsnd
          exact ⟨_, hsnd⟩
    rcases hr with ⟨ns0, rfl⟩
    rcases ih st2 with ⟨ms, hms⟩
    rcases hrec : processUsers streams tNow st2 rest with ⟨stF, r2⟩
    rw [hrec] at hms
    cases r2 with
    | error e => cases hms
    | ok ms2 =>
      refine ⟨ns0 ++ ms2, ?_⟩
      simp [processUsers, hpu, hrec]

/-- Once a user is recorded live at `p` and every subsequent poll reports it
live at some `s ≤ p` (the same broadcast session), no further poll
notifies it and its recorded value never changes. -/
theorem pollTimes_stable (fetchStreams : UsersMap → Except Unit StreamsMap)
    (U : UsersMap) (streams : StreamsMap) (ws : List String) (tNow : Nat)
    (u : String) (e : StreamEntry) (s : Nat)
    (hS : fetchStreams U = Except.ok streams)
    (hcons : consistentStreams streams) (hwf : wellFormedStreams streams)
    (hnd : ws.Nodup) (hu : u ∈ ws)
    (he : streams u = some e) (hp : parse_started_at e.started_at = some s) :
    ∀ (n : Nat) (st : OnlineMap) (p : Nat), st u = some (some p) → ¬ p < s →
      ((pollTimes (Except.ok U) fetchStreams ws tNow n st).1) u = some (some p) ∧
      totalNotifFor u (pollTimes (Except.ok U) fetchStreams ws tNow n st).2 = 0 := by
  intro n
  induction n with
  | zero =>
    intro st p hst _
    exact ⟨hst, rfl⟩
  | succ n ih =>
    intro st p hst hps
    have hlv : lazyVal st tNow u = some p := by
      unfold lazyVal
      rw [hst]
    have hsv : stepVal streams tNow u (lazyVal st tNow u) = some p := by
      unfold stepVal
      rw [he]
      simp only [hp, hlv, if_neg hps]
    have hsn : stepNotify streams u (lazyVal st tNow u) = false := by
      unfold stepNotify
      rw [he]
      simp only [hp, hlv]
      exact decide_eq_false hps
    have hgeq := get_notifications_eq_processUsers fetchStreams U streams ws tNow st hS
    rcases hproc : processUsers streams tNow st ws with ⟨st1, r⟩
    rcases processUsers_ok_of_wellFormed streams tNow hwf ws st with ⟨ns, hns⟩
    rw [hproc] at hns
    subst hns
    have hst1 : st1 u = some (some p) := by
      have := processUsers_fst_mem streams tNow u ws st ns hnd hu (by rw [hproc])
      rw [hproc, hsv] at this
      exact this
    have hcount : countFor u ns = 0 := by
      have := processUsers_count_mem streams tNow u hcons ws st ns hnd hu (by rw [hproc])
      rw [hsn] at this
      simpa using this
    rcases ih st1 p hst1 hps with ⟨ihst, ihcount⟩
    rcases hrest : pollTimes (Except.ok U) fetchStreams ws tNow n st1 with ⟨stF, rs⟩
    rw [hrest] at ihst ihcount
    constructor
    · show (pollTimes (Except.ok U) fetchStreams ws tNow (n + 1) st).1 u = some (some p)
      simp only [pollTimes, hgeq, hproc, hrest]
      exact ihst
    · show totalNotifFor u (pollTimes (Except.ok U) fetchStreams ws tNow (n + 1) st).2 = 0
      simp only [pollTimes, hgeq, hproc, hrest]
      simp only [totalNotifFor, List.map_cons, List.sum_cons] at ihcount ⊢
      rw [hcount]
      omega

theorem singletonStreams_consistent (u : String) (e : StreamEntry)
    (h : e.user_login = u) : consistentStreams (singletonStreams u e) := by
  intro v entry hv
  unfold singletonStreams at hv
  by_cases hvu : v = u
  · rw [if_pos hvu] at hv
    cases hv
    rw [h, hvu]
  · rw [if_neg hvu] at hv
    cases hv

theorem singletonStreams_wellFormed (u : String) (e : StreamEntry)
    (h : (parse_started_at e.started_at).isSome = true) :
    wellFormedStreams (singletonStreams u e) := by
  intro v entry hv
  unfold singletonStreams at hv
  by_cases hvu : v = u
  · rw [if_pos hvu] at hv
    cases hv
    exact h
  · rw [if_neg hvu] at hv
    cases hv

/-! ### Claims about the poller -/

/-- Claim C1: for every watched user processed by a completed
`get_notifications` cycle, with a recorded entry `v0` before the cycle: if
the user is absent from the live-streams result its recorded
`lastKnownLiveSince` is cleared to `None` and no notification is emitted;
if it is present with a parsed `started_at`, a notification is emitted and
the recorded value updated to `started_at` exactly when the prior value is
`None` or strictly earlier, and otherwise nothing is emitted and the
recorded value is unchanged. -/
theorem poll_cycle_per_user_C1
    (fetchStreams : UsersMap → Except Unit StreamsMap) (U : UsersMap)
    (streams : StreamsMap) (ws : List String) (tNow : Nat) (st0 : OnlineMap)
    (u : String) (v0 : Option Nat) (ns : List StreamEntry)
    (hS : fetchStreams U = Except.ok streams)
    (hcons : consistentStreams streams)
    (hnd : ws.Nodup) (hu : u ∈ ws)
    (h0 : st0 u = some v0)
    (hok : (get_notifications (Except.ok U) fetchStreams ws tNow st0).2 = Except.ok ns) :
    (streams u = none →
      ((get_notifications (Except.ok U) fetchStreams ws tNow st0).1) u = some none ∧
      countFor u ns = 0) ∧
    (∀ e s, streams u = some e → parse_started_at e.started_at = some s →
      ((v0 = none ∨ ∃ p, v0 = some p ∧ p < s) →
        ((get_notifications (Except.ok U) fetchStreams ws tNow st0).1) u = some (some s) ∧
        countFor u ns = 1) ∧
      (∀ p, v0 = some p → ¬ p < s →
        ((get_notifications (Except.ok U) fetchStreams ws tNow st0).1) u = some (some p) ∧
        countFor u ns = 0)) := by
  have hgeq := get_notifications_eq_processUsers fetchStreams U streams ws tNow st0 hS
  rw [hgeq] at hok ⊢
  have hlv : lazyVal st0 tNow u = v0 := by
    unfold lazyVal
    rw [h0]
  have hstate := processUsers_fst_mem streams tNow u ws st0 ns hnd hu hok
  have hcount := processUsers_count_mem streams tNow u hcons ws st0 ns hnd hu hok
  rw [hlv] at hstate hcount
  constructor
  · intro habs
    have hsv : stepVal streams tNow u v0 = none := by
      unfold stepVal
      rw [habs]
    have hsn : stepNotify streams u v0 = false := by
      unfold stepNotify
      rw [habs]
    rw [hsv] at hstate
    rw [hsn] at hcount
    exact ⟨hstate, by simpa using hcount⟩
  · intro e s he hp
    constructor
    · intro hprior
      have hsv : stepVal streams tNow u v0 = some s := by
        unfold stepVal
        rw [he]
        simp only [hp]
        rcases hprior with h1 | ⟨p, hp1, hp2⟩
        · rw [h1]
        · rw [hp1]
          simp [hp2]
      have hsn : stepNotify streams u v0 = true := by
        unfold stepNotify
        rw [he]
        simp only [hp]
        rcases hprior with h1 | ⟨p, hp1, hp2⟩
        · rw [h1]
        · rw [hp1]
          simp [hp2]
      rw [hsv] at hstate
      rw [hsn] at hcount
      exact ⟨hstate, by simpa using hcount⟩
    · intro p hp0 hps
      subst hp0
      have hsv : stepVal streams tNow u (some p) = some p := by
        unfold stepVal
        rw [he]
        simp [hp, hps]
      have hsn : stepNotify streams u (some p) = false := by
        unfold stepNotify
        rw [he]
        simp [hp, hps]
      rw [hsv] at hstate
      rw [hsn] at hcount
      exact ⟨hstate, by simpa using hcount⟩

/-- Claim C1 witness: concrete run — watchlist `["alice"]`, `alice`
recorded `None`, live at `tsAlice`: one notification and the recorded
value becomes `tsAlice`. -/
theorem poll_cycle_per_user_C1_witness :
    ((get_notifications (fetchOk usersAB) (fetchStreamsConst streamsAlice)
        ["alice"] tNowLate stAliceNull).1) "alice" = some (some tsAlice) ∧
    countFor "alice" [entryAlice] = 1 := by
  have h := poll_cycle_per_user_C1 (fetchStreamsConst streamsAlice) usersAB
    streamsAlice ["alice"] tNowLate stAliceNull "alice" none [entryAlice]
    rfl (singletonStreams_consistent "alice" entryAlice rfl)
    (by simp) (by simp) rfl rfl
  exact (h.2 entryAlice tsAlice rfl rfl).1 (Or.inl rfl)

/-- Claim C2 counterexample: `alice` is reported live at the same
`started_at` in both of two consecutive polls (N = 2) starting from the
process-start state (no entry for `alice`), yet zero — not exactly one —
notifications are emitted across the polls: the first-seen entry is
initialised to the poll's current wall-clock time `tNowLate`, which is
later than the broadcast's `started_at`, so the comparison suppresses
the notification in every poll. -/
theorem repeated_polls_C2_cex :
    streamsAlice "alice" = some entryAlice ∧
    parse_started_at entryAlice.started_at = some tsAlice ∧
    totalNotifFor "alice"
      (pollTimes (fetchOk usersAB) (fetchStreamsConst streamsAlice)
        ["alice"] tNowLate 2 stEmpty).2 = 0 :=
  ⟨rfl, rfl, rfl⟩

/-- Claim C2 (amended): with the user reported live at the same parsed
`started_at` in every one of N ≥ 1 consecutive polls, exactly one
notification is emitted across the N polls provided the user's effective
recorded value before the first poll (its stored value, or the current
time for a first-seen user) is `None` or strictly earlier than
`started_at`; when that effective value is at or after `started_at`
(notably a first-seen user whose broadcast began before process start),
zero notifications are emitted. -/
theorem repeated_polls_single_notification_C2
    (fetchStreams : UsersMap → Except Unit StreamsMap) (U : UsersMap)
    (streams : StreamsMap) (ws : List String) (tNow : Nat) (st0 : OnlineMap)
    (u : String) (e : StreamEntry) (s : Nat) (N : Nat)
    (hS : fetchStreams U = Except.ok streams)
    (hcons : consistentStreams streams) (hwf : wellFormedStreams streams)
    (hnd : ws.Nodup) (hu : u ∈ ws)
    (he : streams u = some e) (hp : parse_started_at e.started_at = some s)
    (hN : 1 ≤ N) :
    ((lazyVal st0 tNow u = none ∨ ∃ p, lazyVal st0 tNow u = some p ∧ p < s) →
      totalNotifFor u (pollTimes (Except.ok U) fetchStreams ws tNow N st0).2 = 1) ∧
    (∀ p, lazyVal st0 tNow u = some p → ¬ p < s →
      totalNotifFor u (pollTimes (Except.ok U) fetchStreams ws tNow N st0).2 = 0) := by
  cases N with
  | zero => exact absurd hN (by omega)
  | succ n =>
    have hgeq := get_notifications_eq_processUsers fetchStreams U streams ws tNow st0 hS
    rcases processUsers_ok_of_wellFormed streams tNow hwf ws st0 with ⟨ns, hok⟩
    rcases hproc : processUsers streams tNow st0 ws with ⟨st1, r⟩
    rw [hproc] at hok
    subst hok
    have hstate : st1 u = some (stepVal streams tNow u (lazyVal st0 tNow u)) := by
      have := processUsers_fst_mem streams tNow u ws st0 ns hnd hu (by rw [hproc])
      rw [hproc] at this
      exact this
    have hcount : countFor u ns =
        (if stepNotify streams u (lazyVal st0 tNow u) then 1 else 0) := by
      have := processUsers_count_mem streams tNow u hcons ws st0 ns hnd hu (by rw [hproc])
      exact this
    constructor
    · intro hprior
      have hsv : stepVal streams tNow u (lazyVal st0 tNow u) = some s := by
        unfold stepVal
        rw [he]
        simp only [hp]
        rcases hprior with h1 | ⟨p, hp1, hp2⟩
        · rw [h1]
        · rw [hp1]
          simp [hp2]
      have hsn : stepNotify streams u (lazyVal st0 tNow u) = true := by
        unfold stepNotify
        rw [he]
        simp only [hp]
        rcases hprior with h1 | ⟨p, hp1, hp2⟩
        · rw [h1]
        · rw [hp1]
          simp [hp2]
      have hc1 : countFor u ns = 1 := by
        rw [hcount, hsn, if_pos rfl]
      have hst1 : st1 u = some (some s) := by
        rw [hstate, hsv]
      rcases pollTimes_stable fetchStreams U streams ws tNow u e s hS hcons hwf hnd hu
          he hp n st1 s hst1 (Nat.lt_irrefl s) with ⟨_, hrest0⟩
      rcases hrest : pollTimes (Except.ok U) fetchStreams ws tNow n st1 with ⟨stF, rs⟩
      rw [hrest] at hrest0
      simp only [pollTimes, hgeq, hproc, hrest]
      simp only [totalNotifFor, List.map_cons, List.sum_cons] at hrest0 ⊢
      rw [hc1]
      omega
    · intro p hl hps
      have hsv : stepVal streams tNow u (lazyVal st0 tNow u) = some p := by
        unfold stepVal
        rw [he]
        simp only [hp, hl]
        simp [hps]
      have hsn : stepNotify streams u (lazyVal st0 tNow u) = false := by
        unfold stepNotify
        rw [he]
        simp only [hp, hl]
        exact decide_eq_false hps
      have hc0 : countFor u ns = 0 := by
        rw [hcount, hsn]
        simp
      have hst1 : st1 u = some (some p) := by
        rw [hstate, hsv]
      rcases pollTimes_stable fetchStreams U streams ws tNow u e s hS hcons hwf hnd hu
          he hp n st1 p hst1 hps with ⟨_, hrest0⟩
      rcases hrest : pollTimes (Except.ok U) fetchStreams ws tNow n st1 with ⟨stF, rs⟩
      rw [hrest] at hrest0
      simp only [pollTimes, hgeq, hproc, hrest]
      simp only [totalNotifFor, List.map_cons, List.sum_cons] at hrest0 ⊢
      rw [hc0]
      omega

/-- Claim C2 witness: three consecutive polls of `alice`, live at
`tsAlice` each time, starting from a state where `alice` is recorded
`None`: exactly one notification in total. -/
theorem repeated_polls_single_notification_C2_witness :
    totalNotifFor "alice"
      (pollTimes (fetchOk usersAB) (fetchStreamsConst streamsAlice)
        ["alice"] tNowLate 3 stAliceNull).2 = 1 :=
  (repeated_polls_single_notification_C2 (fetchStreamsConst streamsAlice) usersAB
    streamsAlice ["alice"] tNowLate stAliceNull "alice" entryAlice tsAlice 3
    rfl (singletonStreams_consistent "alice" entryAlice rfl)
    (singletonStreams_wellFormed "alice" entryAlice rfl)
    (by simp) (by simp) rfl rfl (by omega)).1 (Or.inl rfl)

/-- Claim C3 counterexample: `alice` has no recorded entry (first poll
since process start) and is observed live with a parsed `started_at`
(`tsAlice`), yet the poll emits no notification, and the recorded state
after the poll is the poll's wall-clock time `tNowLate` — not an
"unknown"/null initialisation. -/
theorem first_poll_C3_cex :
    stEmpty "alice" = none ∧
    streamsAlice "alice" = some entryAlice ∧
    parse_started_at entryAlice.started_at = some tsAlice ∧
    (get_notifications (fetchOk usersAB) (fetchStreamsConst streamsAlice)
      ["alice"] tNowLate stEmpty).2 = Except.ok [] ∧
    ((get_notifications (fetchOk usersAB) (fetchStreamsConst streamsAlice)
      ["alice"] tNowLate stEmpty).1) "alice" = some (some tNowLate) :=
  ⟨rfl, rfl, rfl, rfl, rfl⟩

/-- Claim C3 (amended): a watched user polled for the first time (no entry
in the per-user state map) has its recorded state initialised to the
poll's current time, not to an unknown/null value; consequently, if it is
observed live on that first poll it is notified — and its recorded value
set to `started_at` — only when `started_at` is strictly later than the
poll's current time, and otherwise no notification is emitted and the
recorded value stays the initialisation time. -/
theorem first_poll_init_C3
    (fetchStreams : UsersMap → Except Unit StreamsMap) (U : UsersMap)
    (streams : StreamsMap) (ws : List String) (tNow : Nat) (st0 : OnlineMap)
    (u : String) (e : StreamEntry) (s : Nat) (ns : List StreamEntry)
    (hS : fetchStreams U = Except.ok streams)
    (hcons : consistentStreams streams)
    (hnd : ws.Nodup) (hu : u ∈ ws)
    (h0 : st0 u = none)
    (he : streams u = some e) (hp : parse_started_at e.started_at = some s)
    (hok : (get_notifications (Except.ok U) fetchStreams ws tNow st0).2 = Except.ok ns) :
    ((get_notifications (Except.ok U) fetchStreams ws tNow st0).1) u
      = some (some (if tNow < s then s else tNow)) ∧
    countFor u ns = (if tNow < s then 1 else 0) := by
  have hgeq := get_notifications_eq_processUsers fetchStreams U streams ws tNow st0 hS
  rw [hgeq] at hok ⊢
  have hlv : lazyVal st0 tNow u = some tNow := by
    unfold lazyVal
    rw [h0]
  have hstate := processUsers_fst_mem streams tNow u ws st0 ns hnd hu hok
  have hcount := processUsers_count_mem streams tNow u hcons ws st0 ns hnd hu hok
  rw [hlv] at hstate hcount
  have hsv : stepVal streams tNow u (some tNow) = some (if tNow < s then s else tNow) := by
    unfold stepVal
    rw [he]
    simp only [hp]
    by_cases h : tNow < s
    · simp [h]
    · simp [h]
  have hsn : stepNotify streams u (some tNow) = decide (tNow < s) := by
    unfold stepNotify
    rw [he]
    simp only [hp]
  rw [hsv] at hstate
  rw [hsn] at hcount
  refine ⟨hstate, ?_⟩
  rw [hcount]
  by_cases h : tNow < s
  · simp [h]
  · simp [h]

/-- Claim C3 witness: first poll of `alice` while a stream that started
after the poll's wall clock is reported (future `started_at`): the user is
notified and recorded at `started_at`. -/
theorem first_poll_init_C3_witness :
    ((get_notifications (fetchOk usersAB) (fetchStreamsConst streamsBob)
        ["bob"] (tsBob - 60) stEmpty).1) "bob" = some (some tsBob) ∧
    countFor "bob" [entryBob] = 1 := by
  have h := first_poll_init_C3 (fetchStreamsConst streamsBob) usersAB
    streamsBob ["bob"] (tsBob - 60) stEmpty "bob" entryBob tsBob [entryBob]
    rfl (singletonStreams_consistent "bob" entryBob rfl)
    (by simp) (by simp) rfl rfl rfl rfl
  have hlt : (if tsBob - 60 < tsBob then tsBob else tsBob - 60) = tsBob := by
    rw [if_pos (by decide)]
  have hlt2 : (if tsBob - 60 < tsBob then 1 else 0) = 1 := by
    rw [if_pos (by decide)]
  rw [hlt] at h
  rw [hlt2] at h
  exact h

/-- Claim C4: if either batched lookup fails, the whole cycle returns the
exception with no notifications and the per-user state map exactly as it
was (no user marked offline); and a later successful poll observing the
same previously recorded `started_at` does not re-notify and leaves the
recorded value in place. -/
theorem poll_failure_fail_safe_C4 :
    (∀ (fetchStreams : UsersMap → Except Unit StreamsMap) (ws : List String)
        (tNow : Nat) (st : OnlineMap),
      get_notifications (Except.error ()) fetchStreams ws tNow st
        = (st, Except.error ())) ∧
    (∀ (U : UsersMap) (fetchStreams : UsersMap → Except Unit StreamsMap)
        (ws : List String) (tNow : Nat) (st : OnlineMap),
      fetchStreams U = Except.error () →
      get_notifications (Except.ok U) fetchStreams ws tNow st
        = (st, Except.error ())) ∧
    (∀ (U : UsersMap) (fetchStreams : UsersMap → Except Unit StreamsMap)
        (streams : StreamsMap) (ws : List String) (tNow : Nat) (st : OnlineMap)
        (u : String) (e : StreamEntry) (t1 : Nat) (ns : List StreamEntry),
      fetchStreams U = Except.ok streams → consistentStreams streams →
      ws.Nodup → u ∈ ws → st u = some (some t1) →
      streams u = some e → parse_started_at e.started_at = some t1 →
      (get_notifications (Except.ok U) fetchStreams ws tNow st).2 = Except.ok ns →
      countFor u ns = 0 ∧
      ((get_notifications (Except.ok U) fetchStreams ws tNow st).1) u
        = some (some t1)) := by
  refine ⟨fun fetchStreams ws tNow st => rfl, fun U fetchStreams ws tNow st h => ?_, ?_⟩
  · simp [get_notifications, h]
  · intro U fetchStreams streams ws tNow st u e t1 ns hS hcons hnd hu hrec he hp hok
    have hgeq := get_notifications_eq_processUsers fetchStreams U streams ws tNow st hS
    rw [hgeq] at hok ⊢
    have hlv : lazyVal st tNow u = some t1 := by
      unfold lazyVal
      rw [hrec]
    have hstate := processUsers_fst_mem streams tNow u ws st ns hnd hu hok
    have hcount := processUsers_count_mem streams tNow u hcons ws st ns hnd hu hok
    rw [hlv] at hstate hcount
    have hsv : stepVal streams tNow u (some t1) = some t1 := by
      unfold stepVal
      rw [he]
      simp [hp]
    have hsn : stepNotify streams u (some t1) = false := by
      unfold stepNotify
      rw [he]
      simp only [hp]
      exact decide_eq_false (Nat.lt_irrefl t1)
    rw [hsn] at hcount
    rw [hsv] at hstate
    exact ⟨by simpa using hcount, hstate⟩

/-- Claim C4 witness: a failed user lookup leaves a live-recorded state
untouched, and the next successful poll at the same `started_at` yields no
notification for `alice` and keeps its recorded value. -/
theorem poll_failure_fail_safe_C4_witness :
    get_notifications (Except.error ()) (fetchStreamsConst streamsAlice)
      ["alice"] tNowLate stAliceLive = (stAliceLive, Except.error ()) ∧
    (countFor "alice" [] = 0 ∧
     ((get_notifications (fetchOk usersAB) (fetchStreamsConst streamsAlice)
        ["alice"] tNowLate stAliceLive).1) "alice" = some (some tsAlice)) :=
  ⟨poll_failure_fail_safe_C4.1 (fetchStreamsConst streamsAlice) ["alice"] tNowLate stAliceLive,
   poll_failure_fail_safe_C4.2.2 usersAB (fetchStreamsConst streamsAlice) streamsAlice
     ["alice"] tNowLate stAliceLive "alice" entryAlice tsAlice []
     rfl (singletonStreams_consistent "alice" entryAlice rfl)
     (by simp) (by simp) rfl rfl rfl rfl⟩

/-- Claim C8: a malformed `started_at` on a live entry does not make the
poll skip that entry and continue — it aborts the whole cycle: with
`alice` live with an unparseable `started_at` and `bob` live with a valid
one, the cycle raises (models the uncaught `ValueError` from
`datetime.strptime`), returns no notifications, and `bob` is never
processed (its state entry is not even created). -/
theorem malformed_started_at_aborts_poll_C8 :
    parse_started_at entryBadAlice.started_at = none ∧
    (get_notifications (fetchOk usersAB) (fetchStreamsConst streamsAliceBadBobGood)
        ["alice", "bob"] tNowLate stEmpty).2 = Except.error () ∧
    ((get_notifications (fetchOk usersAB) (fetchStreamsConst streamsAliceBadBobGood)
        ["alice", "bob"] tNowLate stEmpty).1) "bob" = none :=
  ⟨rfl, rfl, rfl⟩

/-- Claim C10: a watchlist name that the user-id resolution cannot resolve
never appears in the live-streams result (API contract hypothesis), so a
completed cycle records it as not live (`None`) and never notifies it,
while every other watched name is processed exactly as usual. -/
theorem unresolved_login_treated_offline_C10
    (U : UsersMap) (fetchStreams : UsersMap → Except Unit StreamsMap)
    (streams : StreamsMap) (ws : List String) (tNow : Nat) (st : OnlineMap)
    (u : String) (ns : List StreamEntry)
    (hS : fetchStreams U = Except.ok streams)
    (hcons : consistentStreams streams)
    (hnd : ws.Nodup)
    (hsub : ∀ v, U v = none → streams v = none)
    (hUu : U u = none) (hu : u ∈ ws)
    (hok : (get_notifications (Except.ok U) fetchStreams ws tNow st).2 = Except.ok ns) :
    ((get_notifications (Except.ok U) fetchStreams ws tNow st).1) u = some none ∧
    countFor u ns = 0 ∧
    (∀ w, w ∈ ws → w ≠ u →
      ((get_notifications (Except.ok U) fetchStreams ws tNow st).1) w
        = some (stepVal streams tNow w (lazyVal st tNow w))) := by
  have hgeq := get_notifications_eq_processUsers fetchStreams U streams ws tNow st hS
  rw [hgeq] at hok ⊢
  have habs : streams u = none := hsub u hUu
  have hstate := processUsers_fst_mem streams tNow u ws st ns hnd hu hok
  have hcount := processUsers_count_mem streams tNow u hcons ws st ns hnd hu hok
  have hsv : stepVal streams tNow u (lazyVal st tNow u) = none := by
    unfold stepVal
    rw [habs]
  have hsn : stepNotify streams u (lazyVal st tNow u) = false := by
    unfold stepNotify
    rw [habs]
  rw [hsv] at hstate
  rw [hsn] at hcount
  refine ⟨hstate, by simpa using hcount, ?_⟩
  intro w hw _
  exact processUsers_fst_mem streams tNow w ws st ns hnd hw hok

/-- Claim C10 witness: `alice` is on the watchlist but not resolved by the
user lookup; the completed cycle records her `None` and never notifies
her, while `bob` is processed as usual. -/
theorem unresolved_login_treated_offline_C10_witness :
    ((get_notifications (fetchOk usersOnlyBob) (fetchStreamsConst streamsBob)
        ["alice", "bob"] tNowLate stEmpty).1) "alice" = some none ∧
    countFor "alice" [] = 0 := by
  have h := unresolved_login_treated_offline_C10 usersOnlyBob
    (fetchStreamsConst streamsBob) streamsBob ["alice", "bob"] tNowLate stEmpty
    "alice" [] rfl (singletonStreams_consistent "bob" entryBob rfl)
    (by simp)
    (by
      intro v hv
      unfold streamsBob singletonStreams
      by_cases hb : v = "bob"
      · rw [hb] at hv
        exact absurd hv (by decide)
      · rw [if_neg hb])
    rfl (by simp) rfl
  exact ⟨h.1, h.2.1⟩

/-! ### Claims about the chat transport, token refresh and ring buffer -/

/-- Claim C5: when the refresh POST returns HTTP 200, both the stored bot
access token and the stored bot refresh token are replaced by the response
body's `access_token` and `refresh_token` and the credentials are
persisted; on any other status the call reports failure and the stored
credentials are untouched. -/
theorem refresh_token_rotation_C5 (cfg : BotCredentials) (resp : TokenResponse)
    (hrt : cfg.twitch_bot_refresh_token ≠ "") :
    (resp.status_code = 200 →
      refresh_twitch_bot_token cfg resp =
        RefreshResult.mk true (some resp.access_token)
          (BotCredentials.mk cfg.twitch_bot_client_id cfg.twitch_bot_secret
            resp.access_token resp.refresh_token) true) ∧
    (resp.status_code ≠ 200 →
      refresh_twitch_bot_token cfg resp = RefreshResult.mk false none cfg false) := by
  constructor
  · intro h200
    unfold refresh_twitch_bot_token
    rw [if_neg hrt, if_pos h200]
  · intro hne
    unfold refresh_twitch_bot_token
    rw [if_neg hrt, if_neg hne]

/-- Claim C5 witness: a 200 response rotates both tokens to the response
values and persists; a 401 leaves the store untouched and fails. -/
theorem refresh_token_rotation_C5_witness :
    refresh_twitch_bot_token (BotCredentials.mk "cid" "sec" "oldAccess" "oldRefresh")
        (TokenResponse.mk 200 "newAccess" "newRefresh")
      = RefreshResult.mk true (some "newAccess")
          (BotCredentials.mk "cid" "sec" "newAccess" "newRefresh") true ∧
    refresh_twitch_bot_token (BotCredentials.mk "cid" "sec" "oldAccess" "oldRefresh")
        (TokenResponse.mk 401 "x" "y")
      = RefreshResult.mk false none
          (BotCredentials.mk "cid" "sec" "oldAccess" "oldRefresh") false :=
  ⟨(refresh_token_rotation_C5 (BotCredentials.mk "cid" "sec" "oldAccess" "oldRefresh")
      (TokenResponse.mk 200 "newAccess" "newRefresh") (by decide)).1 rfl,
   (refresh_token_rotation_C5 (BotCredentials.mk "cid" "sec" "oldAccess" "oldRefresh")
      (TokenResponse.mk 401 "x" "y") (by decide)).2 (by decide)⟩

/-- Claim C6: when the PRIVMSG write fails with a broken-pipe/socket
error, `send_message` marks the transport disconnected and performs
exactly one reconnect-and-resend, returning true exactly when both the
reconnect and the resend succeed (no further retries); and when called
while disconnected it first attempts `connect`, returning false if that
connect fails. -/
theorem send_message_retry_once_C6 (env : SendEnv) :
    (env.firstWriteOk = false →
      send_message true env =
        SendResult.mk (env.reconnectOk && env.resendOk) env.reconnectOk 1 true) ∧
    (env.connectOnEntry = false →
      send_message false env = SendResult.mk false false 0 false) := by
  obtain ⟨c1, w1, rc, rs⟩ := env
  cases c1 <;> cases w1 <;> cases rc <;> cases rs <;> exact ⟨fun h => by cases h <;> rfl, fun h => by cases h <;> rfl⟩

/-- Claim C6 witness: a forced first-write failure with a successful
reconnect and resend returns success after exactly one reconnect; a
disconnected transport whose connect fails returns failure with no
reconnect attempt. -/
theorem send_message_retry_once_C6_witness :
    send_message true (SendEnv.mk true false true true) = SendResult.mk true true 1 true ∧
    send_message false (SendEnv.mk false true true true) = SendResult.mk false false 0 false :=
  ⟨(send_message_retry_once_C6 (SendEnv.mk true false true true)).1 rfl,
   (send_message_retry_once_C6 (SendEnv.mk false true true true)).2 rfl⟩

/-- Claim C7 counterexample: the `connect` of `src/zeddybot.py` (one of
the claim's two cited implementations) sets `connected := true` and
reports success as soon as the socket operations succeed, without having
observed any welcome acknowledgment — here the only server response is a
non-welcome line. -/
theorem connect_speculative_C7_cex :
    legacy_connect true (RecvOutcome.line "junk") = (true, true) ∧
    welcome_check "junk" = false :=
  ⟨rfl, by decide⟩

/-- Claim C7 (amended): the `connect` of `src/main/zeddybot.py` satisfies
the invariant — starting disconnected, `connected` becomes true only when
a received line passes the welcome check, the returned boolean equals the
resulting `connected`, and on timeout or a non-welcome response it
returns false with the state still disconnected; the legacy `connect` of
`src/zeddybot.py` instead reports success (and sets `connected`) exactly
when the socket operations succeed, regardless of any server response. -/
theorem connect_welcome_invariant_C7 (sockOk : Bool) (recv : RecvOutcome) :
    ((connect false sockOk recv).2 = true →
      ∃ resp, recv = RecvOutcome.line resp ∧ welcome_check resp = true) ∧
    ((connect false sockOk recv).1 = (connect false sockOk recv).2) ∧
    (connect false sockOk RecvOutcome.timeout = (false, false)) ∧
    (∀ resp, welcome_check resp = false →
      connect false sockOk (RecvOutcome.line resp) = (false, false)) ∧
    (∀ (sockOk2 : Bool) (recv2 : RecvOutcome),
      legacy_connect sockOk2 recv2 = (true, true) ↔ sockOk2 = true) := by
  refine ⟨?_, ?_, ?_, ?_, ?_⟩
  · intro h
    cases sockOk with
    | false => simp [connect] at h
    | true =>
      cases recv with
      | timeout => simp [connect] at h
      | sockErr => simp [connect] at h
      | line resp =>
        by_cases hw : welcome_check resp = true
        · exact ⟨resp, rfl, hw⟩
        · simp [connect, hw] at h
  · cases sockOk with
    | false => rfl
    | true =>
      cases recv with
      | timeout => rfl
      | sockErr => rfl
      | line resp =>
        by_cases hw : welcome_check resp = true
        · simp [connect, hw]
        · simp [connect, hw]
  · cases sockOk <;> rfl
  · intro resp hw
    cases sockOk with
    | false => rfl
    | true => simp [connect, hw]
  · intro sockOk2 recv2
    cases sockOk2 <;> simp [legacy_connect]

/-- Claim C7 witness: a non-welcome response leaves the main transport
disconnected and `connect` returns false. -/
theorem connect_welcome_invariant_C7_witness :
    connect false true (RecvOutcome.line ":tmi.twitch.tv NOTICE * :Login authentication failed") = (false, false) :=
  (connect_welcome_invariant_C7 true
    (RecvOutcome.line ":tmi.twitch.tv NOTICE * :Login authentication failed")).2.2.2.1
    ":tmi.twitch.tv NOTICE * :Login authentication failed" (by decide)

theorem dequeAppend_lastN (cap : Nat) (buf : List ChatMessage) (x : ChatMessage) :
    dequeAppend cap buf x = lastN cap (buf ++ [x]) := by
  unfold dequeAppend lastN
  rw [List.length_append, List.length_singleton]

theorem lastN_append_lastN (cap : Nat) (l xs : List ChatMessage) :
    lastN cap (lastN cap l ++ xs) = lastN cap (l ++ xs) := by
  unfold lastN
  by_cases hl : l.length ≤ cap
  · have h0 : l.length - cap = 0 := by omega
    rw [h0, List.drop_zero]
  · have hk : l.length - cap ≤ l.length := Nat.sub_le _ _
    rw [← List.drop_append_of_le_length hk, List.drop_drop]
    congr 1
    rw [List.length_drop, List.length_append]
    omega

theorem appendAll_lastN (cap : Nat) :
    ∀ (xs buf : List ChatMessage), buf.length ≤ cap →
      appendAll cap buf xs = lastN cap (buf ++ xs) := by
  intro xs
  induction xs with
  | nil =>
    intro buf h
    have h0 : buf.length - cap = 0 := by omega
    simp [appendAll, lastN, h0]
  | cons x xs ih =>
    intro buf h
    have h1 : appendAll cap buf (x :: xs) = appendAll cap (dequeAppend cap buf x) xs := rfl
    have hlen : (dequeAppend cap buf x).length ≤ cap := by
      unfold dequeAppend
      rw [List.length_drop, List.length_append]
      simp
      omega
    rw [h1, ih (dequeAppend cap buf x) hlen, dequeAppend_lastN, lastN_append_lastN,
      List.append_assoc, List.singleton_append]

/-- Claim C9: the chat-history buffer is created with fixed capacity 100;
appending N+1 messages to an (initially empty) capacity-N buffer leaves
exactly the N most recent messages in arrival order with the oldest
evicted; and the buffer's length never exceeds the capacity. -/
theorem ring_buffer_eviction_C9 :
    chat_messages_maxlen = 100 ∧
    (∀ (N : Nat) (xs : List ChatMessage), 1 ≤ N → xs.length = N + 1 →
      appendAll N [] xs = xs.drop 1 ∧ (appendAll N [] xs).length = N) ∧
    (∀ (cap : Nat) (buf xs : List ChatMessage), buf.length ≤ cap →
      (appendAll cap buf xs).length ≤ cap) := by
  refine ⟨rfl, ?_, ?_⟩
  · intro N xs _ hlen
    have h := appendAll_lastN N xs [] (by simp)
    rw [List.nil_append] at h
    have hdrop : lastN N xs = xs.drop 1 := by
      unfold lastN
      rw [hlen]
      congr 1
      omega
    refine ⟨by rw [h, hdrop], ?_⟩
    rw [h, hdrop, List.length_drop, hlen]
    omega
  · intro cap buf xs hbuf
    rw [appendAll_lastN cap xs buf hbuf]
    unfold lastN
    rw [List.length_drop]
    omega

/-- Claim C9 witness: appending three messages to a capacity-2 buffer
keeps the two most recent, evicting the first; the configured capacity is
100. -/
theorem ring_buffer_eviction_C9_witness :
    chat_messages_maxlen = 100 ∧
    appendAll 2 [] [msgA, msgB, msgC] = [msgB, msgC] := by
  refine ⟨ring_buffer_eviction_C9.1, ?_⟩
  have h := (ring_buffer_eviction_C9.2.1 2 [msgA, msgB, msgC] (by omega) rfl).1
  rw [h]
  rfl
